import Mathlib

/-!
Verification development for the document-processing backend.

Shallow embedding of the deterministic logic of the repository:
filename sanitization (backend/app/utils/filename_utils.py), the
storage-key derivations used by the processing orchestrator, the
download handler and the status handler, the progress estimator
(backend/app/api/endpoints/status.py), the status-update writer
(backend/app/services/supabase_service.py), the orchestration trace
of process_document (backend/app/services/processing_service.py) and
the upload validation (backend/app/api/endpoints/upload.py and
backend/app/core/config.py).

Python strings are modelled as Lean String / List Char; Python int as
Int; Python float arithmetic in the progress estimator as exact
rational arithmetic with int() modelled as truncation toward zero.
-/

namespace DoclingApp

/-- Index of the last occurrence of a character in a list, if any.
Models Python str.rfind for a single character. -/
def lastIdx (c : Char) : List Char → Option Nat
  | [] => none
  | a :: rest =>
    match lastIdx c rest with
    | some i => some (i + 1)
    | none => if a = c then some 0 else none

/-- One past the index of the last '/' in the list, 0 when there is none.
This is the start of the final path component (POSIX semantics, the
deployment platform of the service). -/
def sepSucc (l : List Char) : Nat :=
  match lastIdx '/' l with
  | some i => i + 1
  | none => 0

/-- Models os.path.basename on POSIX: everything after the last '/'. -/
def basenamePosix (l : List Char) : List Char :=
  l.drop (sepSucc l)

/-- Root part of os.path.splitext (CPython posixpath semantics): split at
the last '.' provided it lies after the last '/' and some character
strictly between the start of the final component and that dot is not
itself a dot; otherwise the whole string is the root. -/
def splitextRoot (l : List Char) : List Char :=
  let s := sepSucc l
  match lastIdx '.' l with
  | none => l
  | some d =>
    if s ≤ d ∧ ((l.drop s).take (d - s)).any (fun c => c ≠ '.') then
      l.take d
    else l

/-- Control characters removed by clean_filename: the regex class
x00-x1f together with x7f-x9f. -/
def isCtl (c : Char) : Bool :=
  c.toNat ≤ 0x1f || (0x7f ≤ c.toNat && c.toNat ≤ 0x9f)

/-- The cross-platform blacklist removed by clean_filename:
angle brackets, colon, double quote, slash, backslash, pipe, question
mark, asterisk and the null byte. -/
def blacklistChars : List Char :=
  ['<', '>', ':', '"', '/', '\\', '|', '?', '*', Char.ofNat 0]

/-- Replace spaces with underscores (clean_filename step). -/
def mapSpaces (l : List Char) : List Char :=
  l.map (fun c => if c = ' ' then '_' else c)

/-- Collapse runs of underscores to a single underscore, tracking whether
the previous emitted character was an underscore. Models the regex
substitution of one or more underscores by one underscore. -/
def collapseAux : Bool → List Char → List Char
  | _, [] => []
  | prevU, c :: rest =>
    if c = '_' then
      if prevU then collapseAux true rest
      else '_' :: collapseAux true rest
    else c :: collapseAux false rest

/-- Collapse runs of underscores to one underscore. -/
def collapseUnderscores (l : List Char) : List Char :=
  collapseAux false l

/-- Characters stripped from the ends of the cleaned base name. -/
def isStripChar (c : Char) : Bool :=
  c = '_' || c = '.'

/-- Strip trailing underscores and dots (Python str.rstrip with those
characters). -/
def rstripUS (l : List Char) : List Char :=
  (l.reverse.dropWhile isStripChar).reverse

/-- Strip leading and trailing underscores and dots (Python str.strip). -/
def stripUS (l : List Char) : List Char :=
  rstripUS (l.dropWhile isStripChar)

/-- Truncate the base name to 200 characters and then rstrip underscores
and dots; applied only when the name exceeds 200 characters, exactly as
in the source. -/
def truncate200 (l : List Char) : List Char :=
  if 200 < l.length then rstripUS (l.take 200) else l

/-- Normalize the replacement extension: prepend a dot when it is
nonempty and does not already start with one. -/
def normExt (ext : List Char) : List Char :=
  if ext ≠ [] ∧ ext.head? ≠ some '.' then '.' :: ext else ext

/-- Fallback name used when the input is empty or cleans to empty: the
literal base name "document" with the raw (unnormalized) extension
appended, exactly as in the early-return branches of clean_filename. -/
def fallbackName (ext : List Char) : List Char :=
  "document".data ++ ext

/-- clean_filename from backend/app/utils/filename_utils.py on character
lists: take the basename, strip the extension, remove control and
blacklisted characters, replace spaces with underscores, collapse
underscore runs, strip edge underscores and dots, truncate to 200, and
append the replacement extension (normalized to start with a dot);
empty input, empty stem or empty cleaned result yield the fallback. -/
def cleanList (orig ext : List Char) : List Char :=
  if orig = [] then fallbackName ext
  else
    let filenameOnly := basenamePosix orig
    let stem := splitextRoot filenameOnly
    if stem = [] then fallbackName ext
    else
      let c1 := stem.filter (fun c => !(isCtl c))
      let c2 := c1.filter (fun c => !(blacklistChars.contains c))
      let c3 := mapSpaces c2
      let c4 := collapseUnderscores c3
      let c5 := stripUS c4
      let c6 := truncate200 c5
      if c6 = [] then fallbackName ext
      else c6 ++ normExt ext

/-- clean_filename on Lean strings. -/
def clean_filename (orig : String) (ext : String := ".md") : String :=
  ⟨cleanList orig.data ext.data⟩

/-- Split a character list on '/' (CPython path parsing helper). -/
def splitOnSlash : List Char → List (List Char)
  | [] => [[]]
  | c :: rest =>
    if c = '/' then [] :: splitOnSlash rest
    else
      match splitOnSlash rest with
      | [] => [[c]]
      | p :: ps => (c :: p) :: ps

/-- Final component of a pathlib PurePosixPath: parts are the
slash-separated pieces with empty pieces and single-dot pieces dropped;
the name is the last part, or empty when there is none. -/
def pathName (l : List Char) : List Char :=
  let parts := (splitOnSlash l).filter (fun p => !(p.isEmpty) && p ≠ ['.'])
  parts.getLast?.getD []

/-- pathlib Path(...).stem: the final component without its suffix, where
the suffix exists only when the last dot of the name is neither its
first nor its last character. -/
def pathStem (l : List Char) : List Char :=
  let n := pathName l
  match lastIdx '.' n with
  | none => n
  | some i => if 0 < i ∧ i + 1 < n.length then n.take i else n

/-- Python s.rsplit('.', 1)[0]: everything before the last dot, or the
whole string when it has no dot. -/
def rsplitDotStem (l : List Char) : List Char :=
  match lastIdx '.' l with
  | none => l
  | some i => l.take i

/-- Storage key under which _process_with_docling uploads the converted
markdown: document id, slash, Path(filename).stem, ".md". -/
def orchestratorOutputPath (docId filename : String) : String :=
  docId ++ "/" ++ String.mk (pathStem filename.data) ++ ".md"

/-- Storage key the download endpoint reconstructs: document id, slash,
clean_filename(original_filename, ".md"). -/
def downloadStoragePath (docId filename : String) : String :=
  docId ++ "/" ++ clean_filename filename ".md"

/-- Storage path the status endpoint uses for the signed download URL:
document id, slash, filename.rsplit('.', 1)[0], ".md". -/
def statusUrlPath (docId filename : String) : String :=
  docId ++ "/" ++ String.mk (rsplitDotStem filename.data) ++ ".md"

/-!
Progress estimator, from _calculate_progress in
backend/app/api/endpoints/status.py. The processing options travel as a
Python dict; values are booleans or strings. Elapsed time is an
optional int (default None). Python float arithmetic is modelled as
exact rational arithmetic and int() as truncation toward zero.
-/

/-- A Python value stored in the processing_options dict. -/
inductive PyVal where
  | b (v : Bool)
  | s (v : String)
deriving DecidableEq, Repr

/-- A Python dict with string keys, as an association list. -/
def PyDict := List (String × PyVal)

/-- Python dict .get(key): the value at the key, if present. -/
def dget (d : PyDict) (k : String) : Option PyVal :=
  (d.find? (fun kv => kv.1 = k)).map (fun kv => kv.2)

/-- Python truthiness of an options value: booleans are themselves,
strings are truthy when nonempty. -/
def pyTruthy : PyVal → Bool
  | .b v => v
  | .s v => v ≠ ""

/-- Python comparison of a dict .get result with the string 'fast'. -/
def eqFast : Option PyVal → Bool
  | some (.s v) => v = "fast"
  | _ => false

/-- Python int() on a rational: truncation toward zero. -/
def truncQ (q : ℚ) : ℤ :=
  if q < 0 then ⌈q⌉ else ⌊q⌋

/-- estimated_total computed by _calculate_progress: base_time is 30 when
the dict value at key "mode" equals "fast" and 90 otherwise, doubled
when the value at "ocr_enabled" (default False) is truthy. The source
looks up the key "mode", not "processing_mode". -/
def estTotal (opts : Option PyDict) : ℚ :=
  let o := opts.getD []
  let base : ℚ := if eqFast (dget o "mode") then 30 else 90
  let mult : ℚ := if pyTruthy ((dget o "ocr_enabled").getD (PyVal.b false)) then 2 else 1
  base * mult

/-- Processing-branch percentage: 10 when elapsed is falsy (zero),
otherwise 10 plus at most 80 scaled by elapsed over the estimate,
truncated to an integer and capped at 95. -/
def processingPercent (opts : Option PyDict) (e : ℤ) : ℤ :=
  if e = 0 then 10
  else min (truncQ (10 + min ((e : ℚ) / estTotal opts * 80) 80)) 95

/-- Python `elapsed_time or 0`: None becomes 0 (and 0 stays 0). -/
def pyOrZero : Option ℤ → ℤ
  | none => 0
  | some e => e

/-- _calculate_progress from backend/app/api/endpoints/status.py:
complete is 100, failed is 0, queued is elapsed clamped to 10,
processing uses the time-based estimate (10 when elapsed is falsy),
anything else is 0. -/
def calculateProgress (status : String) (elapsed : Option ℤ)
    (opts : Option PyDict) : ℤ :=
  if status = "complete" then 100
  else if status = "failed" then 0
  else if status = "queued" then min (pyOrZero elapsed) 10
  else if status = "processing" then
    match elapsed with
    | some e => processingPercent opts e
    | none => 10
  else 0

/-!
Status updates and the orchestration trace, from
backend/app/services/supabase_service.py update_document_status and
backend/app/services/processing_service.py.
-/

/-- The update payload written by update_document_status: the new status,
whether the payload includes completed_at (only when the status is
"complete" in the source), and the error_message included only when
truthy (non-None and nonempty). -/
structure StatusUpdate where
  status : String
  completedAtSet : Bool
  errorMessage : Option String
deriving DecidableEq, Repr

/-- update_document_status from supabase_service.py: completed_at is
added to the payload exactly when the status equals "complete";
error_message is added when it is truthy. -/
def update_document_status (status : String)
    (errorMessage : Option String := none) : StatusUpdate :=
  { status := status
    completedAtSet := status = "complete"
    errorMessage :=
      match errorMessage with
      | none => none
      | some m => if m = "" then none else some m }

/-- Outcome of the wrapped Docling conversion call as seen by
process_document: success, an exception with a message, or exceeding
the five-minute asyncio.wait_for budget. -/
inductive ConvOutcome where
  | ok
  | err (msg : String)
  | timeout
deriving DecidableEq

/-- Corruption and protection indicator keywords checked against the
lowercased conversion error message. -/
def corruptionKeywords : List String :=
  ["password", "encrypted", "protected", "corrupt", "damaged", "invalid"]

/-- Keyword check in _process_with_docling: lowercase the message and
look for any indicator substring. -/
def isCorruptionError (msg : String) : Bool :=
  corruptionKeywords.any
    (fun k => decide (k.data <:+: msg.data.map Char.toLower))

/-- Sequence of update_document_status writes performed by
process_document for one document, by conversion outcome: first
"processing"; then "complete" on success, "failed" with the message
"Processing timeout" on timeout, and for a conversion exception either
nothing (a CorruptedFileError is re-raised with no status write when
the message matches an indicator keyword) or "failed" with the generic
"Processing failed: " message. The background caller
process_document_async swallows the exception, so no later write
occurs. -/
def processDocumentUpdates (outcome : ConvOutcome) : List StatusUpdate :=
  update_document_status "processing" none ::
    match outcome with
    | .ok => [update_document_status "complete" none]
    | .timeout => [update_document_status "failed" (some "Processing timeout")]
    | .err msg =>
      if isCorruptionError msg then []
      else [update_document_status "failed" (some ("Processing failed: " ++ msg))]

/-!
Upload validation, from backend/app/api/endpoints/upload.py and
backend/app/core/config.py.
-/

/-- ALLOWED_FILE_TYPES from Settings in backend/app/core/config.py. -/
def ALLOWED_FILE_TYPES : List String :=
  ["application/pdf",
   "application/vnd.openxmlformats-officedocument.wordprocessingml.document",
   "application/vnd.openxmlformats-officedocument.presentationml.presentation",
   "application/vnd.openxmlformats-officedocument.spreadsheetml.sheet",
   "text/plain"]

/-- MAX_FILE_SIZE from Settings: 10 MiB. -/
def MAX_FILE_SIZE : Nat := 10 * 1024 * 1024

/-- Outcome of the synchronous validation in upload_document: invalid
processing mode, oversized file, disallowed content type, or accepted
(a document record is created only in the accepted case). -/
inductive UploadOutcome where
  | invalidMode
  | tooLarge
  | unsupported
  | accepted
deriving DecidableEq, Repr

/-- Validation sequence of upload_document: the processing mode must be
"fast" or "quality", the size at most MAX_FILE_SIZE, and the content
type a member of ALLOWED_FILE_TYPES; otherwise the request fails before
a record is created. -/
def validateUpload (mode : String) (size : Nat) (contentType : String) :
    UploadOutcome :=
  if mode ≠ "fast" ∧ mode ≠ "quality" then .invalidMode
  else if MAX_FILE_SIZE < size then .tooLarge
  else if !(ALLOWED_FILE_TYPES.contains contentType) then .unsupported
  else .accepted

/-!
Helper lemmas about the sanitizer stages: each later stage only emits
characters that already appear in its input, or the underscore.
-/

/-- A character unsafe for the sanitizer guarantee: a path separator
(slash or backslash) or a control character. -/
def badChar (c : Char) : Bool :=
  c = '/' || c = '\\' || isCtl c

lemma mem_collapseAux {c : Char} :
    ∀ (b : Bool) (l : List Char), c ∈ collapseAux b l → c ∈ l := by
  intro b l
  induction l generalizing b with
  | nil => intro h; exact absurd h (by simp [collapseAux])
  | cons a rest ih =>
    intro h
    simp only [collapseAux] at h
    split_ifs at h with h1 h2
    · exact List.mem_cons_of_mem a (ih true h)
    · rcases List.mem_cons.1 h with h3 | h3
      · subst h3; subst h1; exact List.mem_cons_self _ _
      · exact List.mem_cons_of_mem a (ih true h3)
    · rcases List.mem_cons.1 h with h3 | h3
      · subst h3; exact List.mem_cons_self _ _
      · exact List.mem_cons_of_mem a (ih false h3)

lemma mem_rstripUS {c : Char} {l : List Char} (h : c ∈ rstripUS l) : c ∈ l := by
  unfold rstripUS at h
  rw [List.mem_reverse] at h
  exact List.mem_reverse.1 ((List.dropWhile_sublist _).subset h)

lemma mem_stripUS {c : Char} {l : List Char} (h : c ∈ stripUS l) : c ∈ l := by
  unfold stripUS at h
  exact (List.dropWhile_sublist _).subset (mem_rstripUS h)

lemma mem_truncate200 {c : Char} {l : List Char} (h : c ∈ truncate200 l) :
    c ∈ l := by
  unfold truncate200 at h
  split_ifs at h
  · exact (List.take_sublist _ _).subset (mem_rstripUS h)
  · exact h

/-- Every character of the cleaned base name survives both character
filters: it is neither blacklisted nor a control character. -/
lemma cleaned_chars_ok {s : List Char} {c : Char}
    (h : c ∈ truncate200 (stripUS (collapseUnderscores (mapSpaces
      ((s.filter (fun c => !(isCtl c))).filter
        (fun c => !(blacklistChars.contains c))))))) :
    badChar c = false := by
  have h3 := mem_collapseAux false _ (mem_stripUS (mem_truncate200 h))
  rcases List.mem_map.1 h3 with ⟨b, hb, hbc⟩
  rcases List.mem_filter.1 hb with ⟨hb1, hb2⟩
  rcases List.mem_filter.1 hb1 with ⟨_, hb4⟩
  by_cases hsp : b = ' '
  · subst hsp
    simp only [if_pos rfl] at hbc
    subst hbc
    decide
  · rw [if_neg hsp] at hbc
    subst hbc
    simp only [badChar, Bool.or_eq_false_iff]
    refine ⟨⟨?_, ?_⟩, by simpa using hb4⟩
    · rw [decide_eq_false_iff_not]
      intro hc
      subst hc
      simp [blacklistChars] at hb2
    · rw [decide_eq_false_iff_not]
      intro hc
      subst hc
      simp [blacklistChars] at hb2

/-!
Helper lemmas relating the two extension-stripping expressions used at
write time (pathlib stem) and by the status endpoint (rsplit).
-/

lemma lastIdx_lt {c : Char} :
    ∀ {l : List Char} {i : Nat}, lastIdx c l = some i → i < l.length := by
  intro l
  induction l with
  | nil => intro i h; simp [lastIdx] at h
  | cons a rest ih =>
    intro i h
    simp only [lastIdx] at h
    cases hr : lastIdx c rest with
    | some j =>
      rw [hr] at h
      cases h
      exact Nat.succ_lt_succ (ih hr)
    | none =>
      rw [hr] at h
      split_ifs at h
      cases h
      exact Nat.succ_pos _

lemma lastIdx_zero_head {c : Char} :
    ∀ {l : List Char}, lastIdx c l = some 0 → l.head? = some c := by
  intro l
  induction l with
  | nil => intro h; simp [lastIdx] at h
  | cons a rest _ =>
    intro h
    simp only [lastIdx] at h
    cases hr : lastIdx c rest with
    | some j => rw [hr] at h; cases h
    | none =>
      rw [hr] at h
      split_ifs at h with ha
      subst ha
      rfl

lemma lastIdx_last {c : Char} :
    ∀ {l : List Char} {i : Nat}, lastIdx c l = some i → i + 1 = l.length →
      l.getLast? = some c := by
  intro l
  induction l with
  | nil => intro i h _; simp [lastIdx] at h
  | cons a rest ih =>
    intro i h hlen
    simp only [lastIdx] at h
    cases hr : lastIdx c rest with
    | some j =>
      rw [hr] at h
      cases h
      have hrl : j + 1 = rest.length := by
        simpa [List.length_cons] using hlen
      have := ih hr hrl
      have hne : rest ≠ [] := by
        intro hnil
        rw [hnil] at hr
        simp [lastIdx] at hr
      cases rest with
      | nil => exact absurd rfl hne
      | cons b t => simpa [List.getLast?_cons_cons] using this
    | none =>
      rw [hr] at h
      split_ifs at h with ha
      cases h
      subst ha
      have : rest.length = 0 := by
        simpa [List.length_cons] using hlen.symm
      rw [List.length_eq_zero] at this
      subst this
      rfl

lemma splitOnSlash_no_slash {l : List Char} (h : '/' ∉ l) :
    splitOnSlash l = [l] := by
  induction l with
  | nil => rfl
  | cons a rest ih =>
    have ha : a ≠ '/' := fun hc => h (hc ▸ List.mem_cons_self _ _)
    have hr : '/' ∉ rest := fun hc => h (List.mem_cons_of_mem _ hc)
    simp only [splitOnSlash, if_neg ha, ih hr]

lemma pathName_no_slash {l : List Char} (h : '/' ∉ l) (hdot : l ≠ ['.']) :
    pathName l = l := by
  unfold pathName
  rw [splitOnSlash_no_slash h]
  cases l with
  | nil => rfl
  | cons a t => simp [List.filter, hdot]

/-- Under the precondition of the refinement claim, the status handler's
rsplit-based stem and the orchestrator's pathlib stem agree. -/
lemma rsplitDotStem_eq_pathStem {l : List Char} (h : '/' ∉ l)
    (hhead : l.head? ≠ some '.') (hlast : l.getLast? ≠ some '.') :
    rsplitDotStem l = pathStem l := by
  have hdot : l ≠ ['.'] := by
    intro hc
    subst hc
    exact hhead rfl
  unfold rsplitDotStem pathStem
  rw [pathName_no_slash h hdot]
  cases hli : lastIdx '.' l with
  | none => simp [hli]
  | some i =>
    have h1 : 0 < i := by
      rcases Nat.eq_zero_or_pos i with h0 | h0
      · subst h0
        exact absurd (lastIdx_zero_head hli) hhead
      · exact h0
    have h2 : i + 1 < l.length := by
      rcases Nat.lt_or_ge (i + 1) l.length with hlt | hge
      · exact hlt
      · have : i + 1 = l.length := Nat.le_antisymm (lastIdx_lt hli) hge
        exact absurd (lastIdx_last hli this) hlast
    simp [hli, h1, h2]

/-!
Helper lemmas for the progress estimator.
-/

/-- Truncation toward zero is monotone. -/
lemma truncQ_mono {a b : ℚ} (h : a ≤ b) : truncQ a ≤ truncQ b := by
  unfold truncQ
  split_ifs with ha hb hb
  · exact Int.ceil_mono h
  · calc ⌈a⌉ ≤ 0 := Int.ceil_le.2 (by exact_mod_cast le_of_lt ha)
      _ ≤ ⌊b⌋ := Int.floor_nonneg.2 (le_of_not_lt hb)
  · exact absurd (lt_of_le_of_lt h hb) ha
  · exact Int.floor_mono h

/-- The estimated total time is always positive. -/
lemma estTotal_pos (opts : Option PyDict) : 0 < estTotal opts := by
  unfold estTotal
  dsimp only
  split_ifs <;> norm_num

/-- When the rational percentage is at least 10, so is its truncation. -/
lemma le_truncQ_of_le {q : ℚ} (h : (10 : ℚ) ≤ q) : (10 : ℤ) ≤ truncQ q := by
  unfold truncQ
  rw [if_neg (not_lt.2 (le_trans (by norm_num) h))]
  exact Int.le_floor.2 (by exact_mod_cast h)

/-- When the rational percentage is below 10, its truncation is at
most 10. -/
lemma truncQ_le_of_lt {q : ℚ} (h : q < 10) : truncQ q ≤ 10 := by
  unfold truncQ
  split_ifs with hq
  · calc ⌈q⌉ ≤ 0 := Int.ceil_le.2 (by exact_mod_cast le_of_lt hq)
      _ ≤ 10 := by norm_num
  · exact le_of_lt (Int.floor_lt.2 (by exact_mod_cast h))

/-- Monotonicity of the processing branch in elapsed seconds, for any
fixed options. -/
lemma processingPercent_mono (opts : Option PyDict) {e1 e2 : ℤ}
    (h : e1 ≤ e2) : processingPercent opts e1 ≤ processingPercent opts e2 := by
  have hest := estTotal_pos opts
  unfold processingPercent
  split_ifs with h1 h2 h2
  · exact le_refl _
  · refine le_min (le_truncQ_of_le ?_) (by norm_num)
    have he2 : (0 : ℚ) < (e2 : ℚ) := by
      have : 0 < e2 := lt_of_le_of_ne (h1 ▸ h) (Ne.symm h2)
      exact_mod_cast this
    have : (0 : ℚ) ≤ min ((e2 : ℚ) / estTotal opts * 80) 80 :=
      le_min (by positivity) (by norm_num)
    linarith
  · refine le_trans (min_le_left _ _) (truncQ_le_of_lt ?_)
    have he1 : (e1 : ℚ) < 0 := by
      have : e1 < 0 := lt_of_le_of_ne (h2 ▸ h) h1
      exact_mod_cast this
    have hneg : (e1 : ℚ) / estTotal opts * 80 < 0 := by
      have := div_neg_of_neg_of_pos he1 hest
      linarith
    have : min ((e1 : ℚ) / estTotal opts * 80) 80 < 0 :=
      lt_of_le_of_lt (min_le_left _ _) hneg
    linarith
  · refine min_le_min (truncQ_mono ?_) (le_refl _)
    have hdiv : (e1 : ℚ) / estTotal opts ≤ (e2 : ℚ) / estTotal opts := by
      rw [div_le_div_iff_of_pos_right hest]
      exact_mod_cast h
    have : (e1 : ℚ) / estTotal opts * 80 ≤ (e2 : ℚ) / estTotal opts * 80 := by
      nlinarith
    have := min_le_min this (le_refl (80 : ℚ))
    linarith [this]

/-- The processing branch never reaches 100. -/
lemma processingPercent_lt_100 (opts : Option PyDict) (e : ℤ) :
    processingPercent opts e < 100 := by
  unfold processingPercent
  split_ifs
  · norm_num
  · exact lt_of_le_of_lt (min_le_right _ _) (by norm_num)

/-- Characters of the fallback name are safe whenever the extension's
characters are. -/
lemma fallbackName_ok {ext : List Char} (hext : ∀ c ∈ ext, badChar c = false) :
    ∀ c ∈ fallbackName ext, badChar c = false := by
  intro c hc
  have hdoc : ∀ c ∈ "document".data, badChar c = false := by decide
  rcases List.mem_append.1 hc with h | h
  · exact hdoc c h
  · exact hext c h

/-- Characters of the normalized extension are safe whenever the raw
extension's characters are. -/
lemma normExt_ok {ext : List Char} (hext : ∀ c ∈ ext, badChar c = false) :
    ∀ c ∈ normExt ext, badChar c = false := by
  intro c hc
  unfold normExt at hc
  split_ifs at hc
  · rcases List.mem_cons.1 hc with h | h
    · subst h; decide
    · exact hext c h
  · exact hext c hc

/-!
Claim theorems.
-/

/-- C1. Round-trip key derivation: the claim states that the storage key
written by the processing orchestrator (document id, slash, pathlib stem
of the filename, ".md") always equals the key the download handler
reconstructs (document id, slash, clean_filename of the filename). The
code violates this: for the uploaded filename "My Report.pdf" the
orchestrator writes under "d/My Report.md" while the download handler
reads from "d/My_Report.md", because clean_filename replaces spaces
with underscores and Path(...).stem does not, contrary to the comment
in the download endpoint asserting the two derivations match. -/
theorem claim_C1_roundtrip_key_divergence :
    orchestratorOutputPath "d" "My Report.pdf" = "d/My Report.md" ∧
    downloadStoragePath "d" "My Report.pdf" = "d/My_Report.md" ∧
    orchestratorOutputPath "d" "My Report.pdf" ≠
      downloadStoragePath "d" "My Report.pdf" := by
  refine ⟨by decide, by decide, by decide⟩

/-- C2. The claim states that each of the three failure classifications
(timeout, corrupted or protected file, generic conversion failure)
ultimately sets the document status to failed with a distinct message.
The code violates this for the corrupted-file classification: a
conversion error whose message matches an indicator keyword makes
process_document re-raise CorruptedFileError with no status write, so
the record keeps status "processing" forever, while timeout and generic
failures do write a failed status. -/
theorem claim_C2_corrupted_file_never_marked_failed :
    (processDocumentUpdates
        (ConvOutcome.err "File is password protected")).map
      StatusUpdate.status = ["processing"] ∧
    (processDocumentUpdates ConvOutcome.timeout).map
      StatusUpdate.status = ["processing", "failed"] ∧
    (processDocumentUpdates
        (ConvOutcome.err "network unreachable")).map
      StatusUpdate.status = ["processing", "failed"] := by
  refine ⟨by decide, by decide, by decide⟩

/-- C3. The claim states that for status processing, fast mode without
OCR uses a 30-second estimate, so 15 elapsed seconds yields a percent in
the range 45 to 55. The code violates this: _calculate_progress looks
up the options key "mode" while records created by the upload endpoint
store the key "processing_mode", so the fast base time is never
selected and the percent at 15 seconds is 23. -/
theorem claim_C3_fast_mode_key_mismatch :
    calculateProgress "processing" (some 15)
      (some [("ocr_enabled", PyVal.b false),
             ("processing_mode", PyVal.s "fast")]) = 23 ∧
    ¬(45 ≤ (23 : ℤ) ∧ (23 : ℤ) ≤ 55) := by
  constructor
  · simp [calculateProgress, processingPercent, estTotal, dget, eqFast,
      pyTruthy, truncQ, List.find?]
    norm_num
  · decide

/-- C4. The claim states that completed_at is written on the transition
into either terminal state, complete or failed. The code violates this:
update_document_status adds completed_at to the update payload only
when the new status is "complete", so a transition to "failed" (for
example with the message "Processing timeout") leaves completed_at
null forever. -/
theorem claim_C4_completed_at_not_set_on_failed :
    (update_document_status "failed"
        (some "Processing timeout")).completedAtSet = false ∧
    (update_document_status "complete" none).completedAtSet = true := by
  refine ⟨by decide, by decide⟩

/-- C5 counterexample. The claim, as stated, guarantees for every input
and every replacement extension an output with no separators, control
characters, or occurrence of "..". It is false at the concrete inputs
below: interior consecutive dots of the base name survive cleaning
("a..b.pdf" becomes "a..b.md"), and a replacement extension containing
a slash is appended unsanitized ("doc.pdf" with extension "/x" yields
"doc./x"). -/
theorem claim_C5_counterexample :
    clean_filename "a..b.pdf" ".md" = "a..b.md" ∧
    ['.', '.'] <:+: (clean_filename "a..b.pdf" ".md").data ∧
    '/' ∈ (clean_filename "doc.pdf" "/x").data := by
  refine ⟨by decide, by decide, by decide⟩

/-- C5 (amended). For every input string and every replacement extension
whose characters are neither path separators nor control characters,
the output of clean_filename contains no slash, no backslash and no
control character (byte ranges 0x00-0x1f and 0x7f-0x9f); the traversal
guarantee weakens to this, since ".." can survive between ordinary
characters of the base name. -/
theorem claim_C5_amended_no_separators_or_control :
    ∀ (s ext : String), (∀ c ∈ ext.data, badChar c = false) →
      ∀ c ∈ (clean_filename s ext).data, badChar c = false := by
  intro s ext hext c hc
  have hc' : c ∈ cleanList s.data ext.data := hc
  simp only [cleanList] at hc'
  split_ifs at hc'
  · exact fallbackName_ok hext c hc'
  · exact fallbackName_ok hext c hc'
  · exact fallbackName_ok hext c hc'
  · rcases List.mem_append.1 hc' with h | h
    · exact cleaned_chars_ok h
    · exact normExt_ok hext c h

/-- C5 amended witness at a concrete traversal-shaped input. -/
theorem claim_C5_amended_witness :
    (∀ c ∈ ".md".data, badChar c = false) ∧
    (∀ c ∈ (clean_filename "../../../etc/passwd.pdf" ".md").data,
      badChar c = false) :=
  ⟨by decide,
   claim_C5_amended_no_separators_or_control "../../../etc/passwd.pdf" ".md"
     (by decide)⟩

/-- C6. The claim states that the upload allow-list consists exactly of
the PDF, DOCX, PPTX and XLSX MIME types, so a text/plain upload fails
with 400 UNSUPPORTED_FORMAT and no record is created. The code violates
this: ALLOWED_FILE_TYPES in config.py also contains "text/plain", so a
small .txt upload in fast mode passes validation and a document record
is created, contradicting the repository's own upload test. -/
theorem claim_C6_text_plain_accepted :
    validateUpload "fast" 9 "text/plain" = UploadOutcome.accepted ∧
    "text/plain" ∈ ALLOWED_FILE_TYPES := by
  refine ⟨by decide, by decide⟩

/-- C7. For fixed status processing and fixed options, the percent is
monotonically non-decreasing in elapsed seconds and is always strictly
below 100. -/
theorem claim_C7_processing_monotone_lt_100 :
    (∀ (opts : Option PyDict) (t1 t2 : ℤ), t1 ≤ t2 →
      calculateProgress "processing" (some t1) opts ≤
        calculateProgress "processing" (some t2) opts) ∧
    (∀ (opts : Option PyDict) (t : ℤ),
      calculateProgress "processing" (some t) opts < 100) := by
  constructor
  · intro opts t1 t2 h
    show processingPercent opts t1 ≤ processingPercent opts t2
    exact processingPercent_mono opts h
  · intro opts t
    show processingPercent opts t < 100
    exact processingPercent_lt_100 opts t

/-- C7 witness at concrete elapsed times. -/
theorem claim_C7_witness :
    (15 : ℤ) ≤ 30 ∧
    calculateProgress "processing" (some 15) none ≤
      calculateProgress "processing" (some 30) none :=
  ⟨by decide, claim_C7_processing_monotone_lt_100.1 none 15 30 (by decide)⟩

/-- C8. Boundary values of the progress estimator: queued at 0 elapsed
seconds is 0, at 5 is 5, at 20 is clamped to 10; complete is 100 and
failed is 0 for every elapsed time and options. -/
theorem claim_C8_boundary_values :
    calculateProgress "queued" (some 0) none = 0 ∧
    calculateProgress "queued" (some 5) none = 5 ∧
    calculateProgress "queued" (some 20) none = 10 ∧
    (∀ (t : Option ℤ) (opts : Option PyDict),
      calculateProgress "complete" t opts = 100) ∧
    (∀ (t : Option ℤ) (opts : Option PyDict),
      calculateProgress "failed" t opts = 0) := by
  refine ⟨by decide, by decide, by decide, ?_, ?_⟩ <;>
    · intro t opts
      simp [calculateProgress]

/-- C9 counterexample. The claim, as stated, guarantees the output ends
with the replacement extension normalized to start with a dot even in
the fallback cases. It is false at the empty input with extension "md":
the early-return branch appends the raw extension without
normalization, yielding "documentmd", which does not end in ".md". -/
theorem claim_C9_counterexample :
    clean_filename "" "md" = "documentmd" ∧
    ¬(".md".data <:+ (clean_filename "" "md").data) := by
  refine ⟨by decide, by decide⟩

/-- C9 (amended). Whenever the replacement extension already starts with
a dot (as it does at every call site, which passes ".md" or relies on
the default), the output of clean_filename ends with that extension in
every branch, fallback branches included; extensions not starting with
a dot are normalized only in the main branch, not in the fallback
branches. -/
theorem claim_C9_amended_suffix :
    ∀ (s ext : String), ext.data.head? = some '.' →
      ext.data <:+ (clean_filename s ext).data := by
  intro s ext h
  show ext.data <:+ cleanList s.data ext.data
  have hne : normExt ext.data = ext.data := by
    unfold normExt
    rw [if_neg]
    intro hcon
    rw [h] at hcon
    exact hcon.2 rfl
  simp only [cleanList]
  split_ifs
  · exact List.suffix_append _ _
  · exact List.suffix_append _ _
  · exact List.suffix_append _ _
  · rw [hne]
    exact List.suffix_append _ _

/-- C9 amended witness at a concrete input. -/
theorem claim_C9_amended_witness :
    ".md".data.head? = some '.' ∧
    ".md".data <:+ (clean_filename "My Report.pdf" ".md").data :=
  ⟨rfl, claim_C9_amended_suffix "My Report.pdf" ".md" rfl⟩

/-- C10 counterexample. The claim, as stated, asserts that for every
stored filename with no slash, no backslash and no leading dot, the
status handler's signed-URL path equals the orchestrator's upload path.
It is false at "report.": the precondition holds, yet the status
handler derives "d/report.md" while the orchestrator uploaded to
"d/report..md", because pathlib keeps a trailing dot in the stem and
rsplit does not. -/
theorem claim_C10_counterexample :
    ('/' ∉ "report.".data ∧ '\\' ∉ "report.".data ∧
      "report.".data.head? ≠ some '.') ∧
    statusUrlPath "d" "report." = "d/report.md" ∧
    orchestratorOutputPath "d" "report." = "d/report..md" ∧
    statusUrlPath "d" "report." ≠ orchestratorOutputPath "d" "report." := by
  refine ⟨by decide, by decide, by decide, by decide⟩

/-- C10 (amended). For every stored filename that contains no slash and
no backslash, does not begin with a dot and does not end with a dot,
the storage path the status handler uses for the signed download URL
equals the output path the processing orchestrator uploaded the
markdown to. -/
theorem claim_C10_amended_key_equivalence :
    ∀ (docId filename : String),
      '/' ∉ filename.data → '\\' ∉ filename.data →
      filename.data.head? ≠ some '.' → filename.data.getLast? ≠ some '.' →
      statusUrlPath docId filename = orchestratorOutputPath docId filename := by
  intro docId filename h1 _h2 h3 h4
  unfold statusUrlPath orchestratorOutputPath
  rw [rsplitDotStem_eq_pathStem h1 h3 h4]

/-- C10 amended witness at a concrete filename. -/
theorem claim_C10_amended_witness :
    ('/' ∉ "report.pdf".data ∧ '\\' ∉ "report.pdf".data ∧
      "report.pdf".data.head? ≠ some '.' ∧
      "report.pdf".data.getLast? ≠ some '.') ∧
    statusUrlPath "d" "report.pdf" = orchestratorOutputPath "d" "report.pdf" :=
  ⟨by decide,
   claim_C10_amended_key_equivalence "d" "report.pdf" (by decide) (by decide)
     (by decide) (by decide)⟩

end DoclingApp
